import Mathlib

/-
Verification of the SQL-schema-to-ER-diagram pipeline of this repository
(dialect detector, dual-dialect schema parser, secondary regex foreign-key
pass, and Mermaid ER-diagram renderer).

The embedding below is a direct translation of the TypeScript source.
Strings are modelled with Lean strings; the JavaScript toUpperCase,
toLowerCase and trim operations are modelled for the ASCII range via
Char.toLower / Char.toUpper / Char.isWhitespace, which agree with the
JavaScript functions on ASCII text.  The two external SQL grammar engines
(pgsql-ast-parser and node-sql-parser) and the JavaScript regular
expression engine are external libraries: their already-parsed output
(statement trees and regex match groups) is taken as input, and every
piece of logic the repository itself performs on that output is embedded.
-/

/-! ### Basic text operations (ASCII model of the JavaScript string API) -/

/-- Lower-case a string character-by-character (JavaScript toLowerCase, ASCII). -/
def lowerStr (s : String) : String := String.mk (s.data.map Char.toLower)

/-- Upper-case a string character-by-character (JavaScript toUpperCase, ASCII). -/
def upperStr (s : String) : String := String.mk (s.data.map Char.toUpper)

/-- Strip leading and trailing whitespace from a character list (JavaScript trim). -/
def trimList (l : List Char) : List Char :=
  ((l.dropWhile Char.isWhitespace).reverse.dropWhile Char.isWhitespace).reverse

/-- Strip leading and trailing whitespace from a string (JavaScript trim). -/
def trimStr (s : String) : String := String.mk (trimList s.data)

/-- Does the character list pat occur contiguously inside s? -/
def hasInfix (s pat : List Char) : Bool :=
  pat.isPrefixOf s ||
    (match s with
     | [] => false
     | _ :: t => hasInfix t pat)

/-- JavaScript String.includes: substring containment. -/
def includes (s pat : String) : Bool := hasInfix s.data pat.data

/-- Split a character list at commas (JavaScript split with separator comma). -/
def splitCommaAux (acc : List Char) : List Char → List (List Char)
  | [] => [acc.reverse]
  | c :: rest =>
    if c = ',' then acc.reverse :: splitCommaAux [] rest
    else splitCommaAux (c :: acc) rest

/-- Split a string at commas into the list of fields. -/
def splitCommaStr (s : String) : List String :=
  (splitCommaAux [] s.data).map String.mk

/-- Strip one layer of enclosing quote characters: models one of the anchored
regular-expression replacements inside the norm helper of the source, which
removes a leading l and a trailing r when the interior contains no
occurrence of the quote character itself. -/
def stripWrap (l r forbidden : Char) (s : String) : String :=
  match s.data with
  | [] => s
  | c :: rest =>
    if c = l ∧ rest.getLast? = some r ∧ rest.dropLast.all (fun x => x != forbidden)
    then String.mk rest.dropLast
    else s

/-- The norm helper of applyAlterFksFromSql: trim, then strip backtick,
double-quote and square-bracket quoting (in that order). -/
def norm (s : String) : String :=
  stripWrap '[' ']' ']' (stripWrap '\x22' '\x22' '\x22' (stripWrap '\x60' '\x60' '\x60' (trimStr s)))

/-- Replace every occurrence of the two-character pattern a b by rep,
scanning left to right without overlap (JavaScript global replace of a
two-character literal pattern). -/
def replacePair (a b : Char) (rep : List Char) : List Char → List Char
  | [] => []
  | [c] => [c]
  | c :: d :: rest =>
    if c = a ∧ d = b then rep ++ replacePair a b rep rest
    else c :: replacePair a b rep (d :: rest)

/-- The safeLabel helper of the renderer: em-dash for double hyphen, strip
brace, bracket and pipe characters, unicode arrow for the ASCII arrow, and
angle quotes for angle brackets. -/
def safeLabel (s : String) : String :=
  let step1 := replacePair '-' '-' ['—'] s.data
  let step2 := step1.filter (fun c => !(c = '\x7b' || c = '\x7d' || c = '[' || c = ']' || c = '|'))
  let step3 := replacePair '-' '>' ['→'] step2
  let step4 := step3.map (fun c => if c = '<' then '‹' else c)
  let step5 := step4.map (fun c => if c = '>' then '›' else c)
  String.mk step5

/-! ### Data model (the TableSchema / TableColumn / TableRelation interfaces) -/

/-- The references field of a column: parent table and parent column. -/
structure ColRef where
  table : String
  column : String
deriving DecidableEq

/-- A column of the normalized schema.  The optional boolean flags of the
TypeScript interface are modelled as booleans that default to false, and
the optional references field as an option. -/
structure TableColumn where
  name : String
  type : String
  isPrimary : Bool := false
  isForeign : Bool := false
  isUnique : Bool := false
  references : Option ColRef := none
deriving DecidableEq

/-- A table of the normalized schema. -/
structure TableSchema where
  name : String
  columns : List TableColumn
deriving DecidableEq

/-- An explicit relation parsed from the relationship-annotation file. -/
structure TableRelation where
  name : String
  sourceTable : String
  sourceColumn : String
  targetTable : String
  targetColumn : String
  type : String
deriving DecidableEq

/-! ### Dialect detector -/

inductive Dialect where
  | Postgres
  | MySQL
  | SQLite
deriving DecidableEq

/-- Postgres signature test of detectDatabase. -/
def pgSig (sql : String) : Bool :=
  includes (upperStr sql) "SERIAL" || includes (upperStr sql) "BYTEA" || includes (upperStr sql) "::"

/-- MySQL signature test of detectDatabase. -/
def mySig (sql : String) : Bool :=
  includes (upperStr sql) "AUTO_INCREMENT" || includes (upperStr sql) "ENGINE=" || includes (upperStr sql) "UNSIGNED"

/-- SQLite signature test of detectDatabase. -/
def sqliteSig (sql : String) : Bool :=
  includes (upperStr sql) "AUTOINCREMENT" || includes (upperStr sql) "WITHOUT ROWID"

/-- The dialect detector of the source: Postgres signatures first, then
MySQL, then SQLite, defaulting to Postgres. -/
def detectDatabase (sql : String) : Dialect :=
  if pgSig sql then Dialect.Postgres
  else if mySig sql then Dialect.MySQL
  else if sqliteSig sql then Dialect.SQLite
  else Dialect.Postgres

/-! ### Shared helper: update the first column matching a predicate
(models the mutation of the result of Array.prototype.find) -/

def updateFirstCol (p : TableColumn → Bool) (upd : TableColumn → TableColumn) :
    List TableColumn → List TableColumn
  | [] => []
  | c :: cs => if p c then upd c :: cs else c :: updateFirstCol p upd cs

/-! ### Secondary regex foreign-key pass (applyAlterFksFromSql)

The regular expression ALTER_FK_RE is executed by the JavaScript regex
engine; one match is modelled by its four used capture groups: the child
table name, the raw child column list, the parent table name, and the raw
parent column list. -/

/-- One match of the ALTER TABLE ... FOREIGN KEY regular expression. -/
structure AlterFkMatch where
  table : String
  cols : String
  reftable : String
  refcols : String
deriving DecidableEq

/-- The splitCols helper: split the raw capture at commas, then for each
field apply norm, lower-case it and trim it. -/
def splitCols (list : String) : List String :=
  (splitCommaStr list).map (fun s => trimStr (lowerStr (norm s)))

/-- The findTable helper, as an index: first table with exactly the cleaned
name, otherwise first table matching case-insensitively. -/
def findTableIdx (tables : List TableSchema) (name : String) : Option Nat :=
  match tables.findIdx? (fun t => t.name == norm name) with
  | some i => some i
  | none => tables.findIdx? (fun t => lowerStr t.name == lowerStr (norm name))

/-- The parent column paired with child column index i:
parentCols[i] when present, otherwise parentCols[0] (the nullish-coalescing
fallback of the source). -/
def pickParentCol (parentCols : List String) (i : Nat) : String :=
  parentCols.getD i (parentCols.headD "")

/-- The inner loop of one regex match: for each child column (in order), set
the first column of the child table whose lower-cased name equals it to
foreign, overwriting its references with the parent table and the paired
parent column. -/
def applyFkCols (ptable : String) (childCols parentCols : List String)
    (cols : List TableColumn) : List TableColumn :=
  childCols.enum.foldl
    (fun acc p =>
      updateFirstCol (fun c => lowerStr c.name == p.2)
        (fun c => { c with isForeign := true,
                           references := some { table := ptable, column := pickParentCol parentCols p.1 } })
        acc)
    cols

/-- Process one regex match against the table list. -/
def applyAlterFkMatch (tables : List TableSchema) (m : AlterFkMatch) : List TableSchema :=
  match findTableIdx tables m.table with
  | none => tables
  | some k =>
    match tables.get? k with
    | none => tables
    | some child =>
      tables.set k
        { child with
          columns := applyFkCols (norm m.reftable) (splitCols m.cols) (splitCols m.refcols) child.columns }

/-- The secondary regex foreign-key pass: process every match in order.
The match list stands for the matchAll iteration of the source. -/
def applyAlterFksFromSql (ms : List AlterFkMatch) (tables : List TableSchema) : List TableSchema :=
  ms.foldl applyAlterFkMatch tables

/-! ### Postgres statement processing (the pgsql-ast-parser branch of
SQLParser.parse)

The statement tree produced by the external pgsql-ast-parser library is
taken as input; only the shapes the source reads are modelled. -/

/-- A column node of a Postgres create-table statement: name, data type
name (empty when absent) and the list of inline constraint type tags. -/
structure PgCol where
  name : String
  dataType : String
  constraints : List String
deriving DecidableEq

/-- A table-level constraint of a Postgres create-table statement. -/
inductive PgTableConstraint where
  | primaryKey (columns : List String)
  | other
deriving DecidableEq

/-- A command of a Postgres alter-table statement.  The source only reads
add-constraint commands whose constraint is a foreign key; the grammar
guarantees the column lists are non-empty, and the source reads only their
first elements. -/
inductive PgCmd where
  | addForeignKey (columns : List String) (foreignTable : String) (foreignColumns : List String)
  | other
deriving DecidableEq

/-- A statement of the Postgres tree. -/
inductive PgStmt where
  | createTable (name : String) (columns : List PgCol) (constraints : List PgTableConstraint)
  | alterTable (table : String) (commands : List PgCmd)
  | other
deriving DecidableEq

/-- Build one column from a Postgres column node (the falsy data type name
becomes unknown; the inline constraint tags set the flags). -/
def pgBuildColumn (col : PgCol) : TableColumn :=
  { name := col.name,
    type := if col.dataType = "" then "unknown" else col.dataType,
    isPrimary := col.constraints.contains "primary key",
    isUnique := col.constraints.contains "unique" }

/-- Fold the table-level primary-key constraints into the column list
(exact name match, first matching column). -/
def pgApplyTablePk (cons : List PgTableConstraint) (cols : List TableColumn) : List TableColumn :=
  cons.foldl
    (fun acc con =>
      match con with
      | PgTableConstraint.primaryKey pkCols =>
        pkCols.foldl
          (fun acc2 pkName =>
            updateFirstCol (fun c => c.name == pkName) (fun c => { c with isPrimary := true }) acc2)
          acc
      | PgTableConstraint.other => acc)
    cols

/-- Fold the alter-table commands into the column list of the resolved
table: for an add-foreign-key command the source reads only the first
child column and the first referenced column. -/
def pgApplyCmds (cmds : List PgCmd) (cols : List TableColumn) : List TableColumn :=
  cmds.foldl
    (fun acc cmd =>
      match cmd with
      | PgCmd.addForeignKey (c0 :: _) ft (f0 :: _) =>
        updateFirstCol (fun c => c.name == c0)
          (fun c => { c with isForeign := true, references := some { table := ft, column := f0 } })
          acc
      | _ => acc)
    cols

/-- Process one Postgres statement against the accumulated table list. -/
def pgApplyStmt (tables : List TableSchema) (stmt : PgStmt) : List TableSchema :=
  match stmt with
  | PgStmt.createTable name cols cons =>
    tables ++ [{ name := name, columns := pgApplyTablePk cons (cols.map pgBuildColumn) }]
  | PgStmt.alterTable tname cmds =>
    match tables.findIdx? (fun t => t.name == tname) with
    | none => tables
    | some k =>
      match tables.get? k with
      | none => tables
      | some t => tables.set k { t with columns := pgApplyCmds cmds t.columns }
  | PgStmt.other => tables

/-- Process a whole Postgres statement list. -/
def pgApplyStmts (stmts : List PgStmt) (tables : List TableSchema) : List TableSchema :=
  stmts.foldl pgApplyStmt tables

/-! ### MySQL / SQLite statement processing (the node-sql-parser branch) -/

/-- A column definition of a MySQL create statement: name (empty when
absent), data type (empty when absent), the optional constraint tag, and
the referenced table and column read when the tag is a foreign key. -/
structure MyColDef where
  name : String
  dataType : String
  constraintType : Option String
  refTable : String
  refColumn : String
deriving DecidableEq

/-- One create definition: a column or a table-level constraint. -/
inductive MyDef where
  | column (c : MyColDef)
  | conPrimaryKey (columns : List String)
  | conForeignKey (columns : List String) (refTable : String) (refCols : List String)
  | conOther
deriving DecidableEq

/-- A statement of the node-sql-parser tree (a create statement with its
optional table name, everything else ignored). -/
inductive MyStmt where
  | create (tableName : Option String) (defs : List MyDef)
  | other
deriving DecidableEq

/-- Build one column from a MySQL column definition. -/
def myBuildColumn (c : MyColDef) : TableColumn :=
  { name := c.name,
    type := if c.dataType = "" then "unknown" else c.dataType,
    isPrimary := c.constraintType == some "primary key",
    isUnique := c.constraintType == some "unique",
    isForeign := c.constraintType == some "foreign key",
    references :=
      if c.constraintType == some "foreign key"
      then some { table := c.refTable, column := c.refColumn }
      else none }

/-- Fold the table-level constraints (composite primary keys and foreign
keys, matched case-insensitively) into the column list.  An out-of-range
referenced-column index makes the source raise and produce nothing; it is
modelled as skipping that child column. -/
def myApplyCons (defs : List MyDef) (cols : List TableColumn) : List TableColumn :=
  defs.foldl
    (fun acc d =>
      match d with
      | MyDef.conPrimaryKey pkCols =>
        pkCols.foldl
          (fun acc2 pk =>
            updateFirstCol (fun c => lowerStr c.name == lowerStr pk)
              (fun c => { c with isPrimary := true }) acc2)
          acc
      | MyDef.conForeignKey fkCols rt rcs =>
        fkCols.enum.foldl
          (fun acc2 p =>
            match rcs.get? p.1 with
            | none => acc2
            | some rc =>
              updateFirstCol (fun c => lowerStr c.name == lowerStr p.2)
                (fun c => { c with isForeign := true,
                                   references := some { table := rt, column := rc } })
                acc2)
          acc
      | _ => acc)
    cols

/-- Process one MySQL statement: a create statement with a present table
name appends one table. -/
def myApplyStmt (tables : List TableSchema) (stmt : MyStmt) : List TableSchema :=
  match stmt with
  | MyStmt.create none _ => tables
  | MyStmt.create (some tname) defs =>
    let cols := defs.filterMap
      (fun d => match d with
                | MyDef.column c => some (myBuildColumn c)
                | _ => none)
    tables ++ [{ name := tname, columns := myApplyCons defs cols }]
  | MyStmt.other => tables

/-- Process a whole MySQL statement list. -/
def myApplyStmts (stmts : List MyStmt) (tables : List TableSchema) : List TableSchema :=
  stmts.foldl myApplyStmt tables

/-! ### The full parse (SQLParser.parse) -/

/-- One input file: its raw SQL text together with the outputs of the two
external engines on that text (the Postgres statement tree, the MySQL
statement tree or none on a parse error, and the regex match list). -/
structure SqlFile where
  sql : String
  pgAst : List PgStmt
  myAst : Option (List MyStmt)
  fkMatches : List AlterFkMatch

/-- Process one file: dispatch on the detected dialect; a MySQL parse
error skips the file entirely; otherwise the MySQL branch is followed by
the secondary regex foreign-key pass over the shared table list. -/
def parseFile (tables : List TableSchema) (f : SqlFile) : List TableSchema :=
  match detectDatabase f.sql with
  | Dialect.Postgres => pgApplyStmts f.pgAst tables
  | _ =>
    match f.myAst with
    | none => tables
    | some stmts => applyAlterFksFromSql f.fkMatches (myApplyStmts stmts tables)

/-- The full parse: fold all files over the shared accumulated table list,
starting from the empty list. -/
def SQLParser.parse (files : List SqlFile) : List TableSchema :=
  files.foldl parseFile []

/-! ### Diagram renderer (generateMermaidERD) -/

/-- The de-duplication key: trimmed, upper-cased table name. -/
def tableKey (t : TableSchema) : String := upperStr (trimStr t.name)

/-- De-duplicate tables by key, keeping the first occurrence (the Map
insertion logic of the source, values taken in insertion order). -/
def dedupeTables (schemas : List TableSchema) : List TableSchema :=
  schemas.foldl
    (fun acc t => if acc.any (fun u => tableKey u == tableKey t) then acc else acc ++ [t])
    []

/-- The badge list of a column: PK when primary, else FK when foreign,
else none. -/
def badgesFor (col : TableColumn) : List String :=
  if col.isPrimary then ["PK"]
  else if col.isForeign then ["FK"]
  else []

/-- One rendered column line of an entity block. -/
def renderColumn (col : TableColumn) : String :=
  let type := upperStr (if col.type = "" then "UNKNOWN" else col.type)
  let badges := badgesFor col
  "    " ++ type ++ " " ++ col.name ++
    (if badges.length ≠ 0 then " " ++ String.intercalate " " badges else "") ++ "\n"

/-- One rendered entity block. -/
def renderEntity (t : TableSchema) : String :=
  "  " ++ upperStr t.name ++ " \x7b\n" ++ String.join (t.columns.map renderColumn) ++ "  \x7d\n"

/-- One rendered relation line for an explicit annotation-file relation:
the arrow is one-to-many when the cardinality text contains many, and the
label is the sanitized name falling back to the type and then to rel. -/
def explicitRelLine (rel : TableRelation) : String :=
  let arrow := if includes (lowerStr rel.type) "many" then "||--o\x7b" else "||--||"
  let label := safeLabel (if rel.name ≠ "" then rel.name else if rel.type ≠ "" then rel.type else "rel")
  "  " ++ upperStr rel.targetTable ++ " " ++ arrow ++ " " ++ upperStr rel.sourceTable ++ " : " ++ label ++ "\n"

/-- The relation line derived from one foreign-key column of one table
(none when the column is not foreign or carries no references record). -/
def fkRelLine (t : TableSchema) (c : TableColumn) : Option String :=
  match c.references with
  | none => none
  | some r =>
    if c.isForeign then
      let pkCols := (t.columns.filter (fun x => x.isPrimary)).map (fun x => x.name)
      let isOneToOne := c.isUnique || (c.isPrimary && pkCols.length == 1)
      let arrow := if isOneToOne then "||--||" else "||--o\x7b"
      some ("  " ++ upperStr r.table ++ " " ++ arrow ++ " " ++ upperStr t.name ++ " : "
            ++ c.name ++ "→" ++ r.column ++ "\n")
    else none

/-- All foreign-key relation lines, emitted over the original
(non-deduplicated) table sequence in order. -/
def fkRelLines (schemas : List TableSchema) : List String :=
  schemas.foldr (fun t acc => t.columns.filterMap (fkRelLine t) ++ acc) []

/-- The fixed placeholder diagram for empty input. -/
def emptyDiagram : String :=
  "erDiagram\n      EMPTY \x7b\n        string note \"No tables found\"\n      \x7d"

/-- The full renderer: placeholder on empty input, otherwise the header,
the entity blocks of the de-duplicated tables, the explicit relation
lines, and the foreign-key relation lines, in that order. -/
def generateMermaidERD (schemas : List TableSchema) (relations : List TableRelation) : String :=
  if schemas.isEmpty then emptyDiagram
  else
    "erDiagram\n"
      ++ String.join ((dedupeTables schemas).map renderEntity)
      ++ String.join (relations.map explicitRelLine)
      ++ String.join (fkRelLines schemas)

/-! ### Claim-side auxiliary definition

keepFirstByKey follows the wording of the specification for
de-duplication: keep, in first-occurrence order, the first table of every
equivalence class of tables sharing a key, dropping all later members of
the class. -/

def keepFirstByKey (key : TableSchema → String) : List TableSchema → List TableSchema
  | [] => []
  | t :: ts => t :: keepFirstByKey key (ts.filter (fun u => key u != key t))
termination_by l => l.length
decreasing_by
  simp only [List.length_cons]
  have := List.length_filter_le (fun u => key u != key t) ts
  omega

/-! ### Relations used to state how the secondary foreign-key pass may
change a column, and the foreign-key pairing invariant -/

/-- How one column may evolve under the secondary regex foreign-key pass:
name, type, primary and unique flags are untouched, and either the
foreign flag and references are both untouched, or the column was marked
foreign and given a references record whose column field is lower-cased. -/
def fkColEvolves (c c' : TableColumn) : Prop :=
  c'.name = c.name ∧ c'.type = c.type ∧ c'.isPrimary = c.isPrimary ∧ c'.isUnique = c.isUnique ∧
    ((c'.isForeign = c.isForeign ∧ c'.references = c.references) ∨
      (c'.isForeign = true ∧ ∃ r, c'.references = some r ∧ lowerStr r.column = r.column))

/-- How one table may evolve under the secondary regex foreign-key pass. -/
def fkTableEvolves (t t' : TableSchema) : Prop :=
  t'.name = t.name ∧ List.Forall₂ fkColEvolves t.columns t'.columns

/-- The foreign-key pairing invariant of the data model: the foreign flag
of a column is set exactly when its references record is present. -/
def colInv (c : TableColumn) : Prop := c.isForeign = true ↔ c.references.isSome = true

/-- The invariant lifted to a table list. -/
def tablesInv (tables : List TableSchema) : Prop :=
  ∀ t ∈ tables, ∀ c ∈ t.columns, colInv c

/-! ### Helper lemmas: characters and lower-casing -/

theorem charToNat_ofNat_valid (n : Nat) (h : n < 55296) : (Char.ofNat n).toNat = n := by
  rw [Char.ofNat, dif_pos (Or.inl (by omega))]
  rfl

theorem toLower_toLower (c : Char) : Char.toLower (Char.toLower c) = Char.toLower c := by
  unfold Char.toLower
  by_cases h : c.toNat ≥ 65 ∧ c.toNat ≤ 90
  · rw [if_pos h]
    have hv : (Char.ofNat (c.toNat + 32)).toNat = c.toNat + 32 := charToNat_ofNat_valid _ (by omega)
    rw [if_neg (by omega)]
  · rw [if_neg h, if_neg h]

theorem lowerStr_chars_fixed (s : String) : ∀ c ∈ (lowerStr s).data, Char.toLower c = c := by
  intro c hc
  have hd : (lowerStr s).data = s.data.map Char.toLower := rfl
  rw [hd, List.mem_map] at hc
  obtain ⟨a, _, rfl⟩ := hc
  exact toLower_toLower a

theorem trimList_mem {l : List Char} : ∀ c ∈ trimList l, c ∈ l := by
  intro c hc
  unfold trimList at hc
  rw [List.mem_reverse] at hc
  have h1 := (List.dropWhile_sublist _).subset hc
  rw [List.mem_reverse] at h1
  exact (List.dropWhile_sublist _).subset h1

theorem lowerStr_trim_lower (s : String) : lowerStr (trimStr (lowerStr s)) = trimStr (lowerStr s) := by
  show String.mk ((trimStr (lowerStr s)).data.map Char.toLower) = trimStr (lowerStr s)
  have hd : (trimStr (lowerStr s)).data = trimList (lowerStr s).data := rfl
  rw [hd]
  have hfix : ∀ c ∈ trimList (lowerStr s).data, Char.toLower c = c :=
    fun c hc => lowerStr_chars_fixed s c (trimList_mem c hc)
  rw [List.map_congr_left hfix, List.map_id']
  rfl

theorem splitCols_lower_fixed (s : String) : ∀ x ∈ splitCols s, lowerStr x = x := by
  intro x hx
  unfold splitCols at hx
  rw [List.mem_map] at hx
  obtain ⟨raw, _, rfl⟩ := hx
  exact lowerStr_trim_lower (norm raw)

theorem getD_mem_or_default : ∀ (l : List String) (i : Nat) (d : String), l.getD i d ∈ l ∨ l.getD i d = d
  | [], _, _ => Or.inr rfl
  | a :: _, 0, _ => Or.inl (by simp [List.getD])
  | _ :: t, i + 1, d =>
    match getD_mem_or_default t i d with
    | Or.inl h => Or.inl (by rw [List.getD_cons_succ]; exact List.mem_cons_of_mem _ h)
    | Or.inr h => Or.inr (by rw [List.getD_cons_succ]; exact h)

theorem pickParentCol_mem_or_empty (pcs : List String) (i : Nat) :
    pickParentCol pcs i ∈ pcs ∨ pickParentCol pcs i = "" := by
  rcases getD_mem_or_default pcs i (pcs.headD "") with h | h
  · exact Or.inl h
  · rw [pickParentCol, h]
    cases pcs with
    | nil => exact Or.inr rfl
    | cons a t => exact Or.inl (by simp [List.headD])

/-! ### Claim C7 -/

/-- C7: the dialect detector is total (its codomain has exactly the three
dialects) and resolves by signature priority: Postgres whenever a Postgres
signature substring is present, regardless of the other signatures;
otherwise MySQL on a MySQL signature; otherwise SQLite on an SQLite
signature; and Postgres when no signature matches. -/
theorem C7_detect_dialect_priority (sql : String) :
    (detectDatabase sql = Dialect.Postgres ↔
      (pgSig sql = true ∨ (mySig sql = false ∧ sqliteSig sql = false)))
  ∧ (detectDatabase sql = Dialect.MySQL ↔ (pgSig sql = false ∧ mySig sql = true))
  ∧ (detectDatabase sql = Dialect.SQLite ↔
      (pgSig sql = false ∧ mySig sql = false ∧ sqliteSig sql = true)) := by
  unfold detectDatabase
  by_cases h1 : pgSig sql <;> by_cases h2 : mySig sql <;> by_cases h3 : sqliteSig sql <;>
    simp [h1, h2, h3]

theorem C7_detect_dialect_priority_witness :
    detectDatabase "CREATE TABLE a (id SERIAL, n INT AUTO_INCREMENT)" = Dialect.Postgres :=
  (C7_detect_dialect_priority _).1.mpr (Or.inl (by decide))

/-! ### Claim C6 -/

/-- C6: badge precedence on rendered column lines: a primary column always
carries exactly the badge PK (even when also foreign), a non-primary
foreign column carries exactly FK, and a column with neither flag carries
no badge. -/
theorem C6_badge_precedence (col : TableColumn) :
    (col.isPrimary = true →
      renderColumn col = "    " ++ upperStr (if col.type = "" then "UNKNOWN" else col.type)
        ++ " " ++ col.name ++ " PK" ++ "\n")
  ∧ (col.isPrimary = false → col.isForeign = true →
      renderColumn col = "    " ++ upperStr (if col.type = "" then "UNKNOWN" else col.type)
        ++ " " ++ col.name ++ " FK" ++ "\n")
  ∧ (col.isPrimary = false → col.isForeign = false →
      renderColumn col = "    " ++ upperStr (if col.type = "" then "UNKNOWN" else col.type)
        ++ " " ++ col.name ++ "" ++ "\n") := by
  refine ⟨fun h1 => ?_, fun h1 h2 => ?_, fun h1 h2 => ?_⟩
  · simp only [renderColumn, badgesFor, h1]
    rfl
  · simp only [renderColumn, badgesFor, h1, h2]
    rfl
  · simp only [renderColumn, badgesFor, h1, h2]
    rfl

theorem C6_badge_precedence_witness :
    renderColumn { name := "id", type := "int", isPrimary := true, isForeign := true } =
      "    " ++ upperStr (if ("int" : String) = "" then "UNKNOWN" else "int") ++ " " ++ "id" ++ " PK" ++ "\n" :=
  (C6_badge_precedence _).1 rfl

/-! ### Helper lemmas: getD in and out of range -/

theorem getD_of_le_length : ∀ (l : List String) (i : Nat) (d : String), l.length ≤ i → l.getD i d = d
  | [], _, _, _ => rfl
  | _ :: t, i + 1, d, h => by
    rw [List.getD_cons_succ]
    exact getD_of_le_length t i d (by simpa using h)

theorem getD_of_lt_length : ∀ (l : List String) (i : Nat) (d : String) (h : i < l.length),
    l.getD i d = l.get ⟨i, h⟩
  | a :: _, 0, d, _ => by simp [List.getD]
  | _ :: t, i + 1, d, h => by
    rw [List.getD_cons_succ]
    exact getD_of_lt_length t i d (by simpa using h)

/-! ### Claim C3 -/

/-- C3: in the secondary regex foreign-key pass, one match is processed by
resolving the child table first by exact name equality and then by
case-insensitive equality (an unmatched name leaves the table list
untouched); on a hit, the resolved table has its columns updated from the
comma-split column lists, and the parent column paired with child index i
is the i-th parent column when it exists and the first parent column
otherwise (the best-effort fallback for a shorter parent list). -/
theorem C3_regex_fk_resolution_pairing (m : AlterFkMatch) (tables : List TableSchema) :
    ((∀ t ∈ tables, t.name ≠ norm m.table ∧ lowerStr t.name ≠ lowerStr (norm m.table)) →
        applyAlterFksFromSql [m] tables = tables)
  ∧ (∀ k, tables.findIdx? (fun t => t.name == norm m.table) = some k →
        findTableIdx tables m.table = some k)
  ∧ (tables.findIdx? (fun t => t.name == norm m.table) = none →
        findTableIdx tables m.table =
          tables.findIdx? (fun t => lowerStr t.name == lowerStr (norm m.table)))
  ∧ (∀ k child, findTableIdx tables m.table = some k → tables.get? k = some child →
        applyAlterFksFromSql [m] tables =
          tables.set k
            ⟨child.name,
             applyFkCols (norm m.reftable) (splitCols m.cols) (splitCols m.refcols) child.columns⟩)
  ∧ (∀ i, (splitCols m.refcols).length ≤ i →
        pickParentCol (splitCols m.refcols) i = (splitCols m.refcols).headD "")
  ∧ (∀ i (h : i < (splitCols m.refcols).length),
        pickParentCol (splitCols m.refcols) i = (splitCols m.refcols).get ⟨i, h⟩) := by
  refine ⟨?_, ?_, ?_, ?_, ?_, ?_⟩
  · intro h
    have hex : tables.findIdx? (fun t => t.name == norm m.table) = none :=
      List.findIdx?_eq_none_iff.mpr (fun t ht => beq_eq_false_iff_ne.mpr (h t ht).1)
    have hci : tables.findIdx? (fun t => lowerStr t.name == lowerStr (norm m.table)) = none :=
      List.findIdx?_eq_none_iff.mpr (fun t ht => beq_eq_false_iff_ne.mpr (h t ht).2)
    have hfind : findTableIdx tables m.table = none := by
      unfold findTableIdx
      rw [hex, hci]
    simp only [applyAlterFksFromSql, List.foldl_cons, List.foldl_nil, applyAlterFkMatch, hfind]
  · intro k hk
    unfold findTableIdx
    rw [hk]
  · intro hk
    unfold findTableIdx
    rw [hk]
  · intro k child hk hg
    simp only [applyAlterFksFromSql, List.foldl_cons, List.foldl_nil, applyAlterFkMatch, hk, hg]
  · intro i hi
    unfold pickParentCol
    exact getD_of_le_length _ i _ hi
  · intro i hi
    unfold pickParentCol
    exact getD_of_lt_length _ i _ hi

theorem C3_regex_fk_resolution_pairing_witness :
    applyAlterFksFromSql [{ table := "missing", cols := "a", reftable := "p", refcols := "x" }]
      [{ name := "t", columns := [] }] = [{ name := "t", columns := [] }] :=
  (C3_regex_fk_resolution_pairing _ _).1 (by decide)

/-! ### Claim C2 (corrected) -/

/-- C2 counterexample: a Postgres-path ALTER TABLE foreign-key constraint
listing two child columns marks only the first listed column; the second
listed column stays non-foreign with no references, contradicting the
claim that each listed child column is marked and paired by index. -/
theorem C2_counterexample :
    pgApplyStmts
      [PgStmt.createTable "t" [⟨"a", "int", []⟩, ⟨"b", "int", []⟩] [],
       PgStmt.alterTable "t" [PgCmd.addForeignKey ["a", "b"] "p" ["x", "y"]]] [] =
      [{ name := "t", columns := [
          { name := "a", type := "int", isForeign := true,
            references := some { table := "p", column := "x" } },
          { name := "b", type := "int" }] }]
  ∧ ∃ t ∈ pgApplyStmts
      [PgStmt.createTable "t" [⟨"a", "int", []⟩, ⟨"b", "int", []⟩] [],
       PgStmt.alterTable "t" [PgCmd.addForeignKey ["a", "b"] "p" ["x", "y"]]] [],
      ∃ c ∈ t.columns, c.name = "b" ∧ c.isForeign = false ∧ c.references = none :=
  ⟨by decide, by decide⟩

/-- C2 amended: the Postgres-path ALTER TABLE foreign-key handling uses
only the first listed child column and the first referenced parent column:
the statement behaves exactly like its single-column truncation, an
unmatched table name leaves every table unchanged, and on a match the
first column of the resolved table carrying the first listed name is
marked foreign with references set to the parent table and the first
referenced column. -/
theorem C2_pg_alter_first_column_only (tables : List TableSchema) (tname ft c0 f0 : String)
    (cs fs : List String) :
    (pgApplyStmts [PgStmt.alterTable tname [PgCmd.addForeignKey (c0 :: cs) ft (f0 :: fs)]] tables =
       pgApplyStmts [PgStmt.alterTable tname [PgCmd.addForeignKey [c0] ft [f0]]] tables)
  ∧ (tables.findIdx? (fun t => t.name == tname) = none →
       pgApplyStmts [PgStmt.alterTable tname [PgCmd.addForeignKey (c0 :: cs) ft (f0 :: fs)]] tables
         = tables)
  ∧ (∀ k t, tables.findIdx? (fun t => t.name == tname) = some k → tables.get? k = some t →
       pgApplyStmts [PgStmt.alterTable tname [PgCmd.addForeignKey (c0 :: cs) ft (f0 :: fs)]] tables
         = tables.set k
             ⟨t.name,
              updateFirstCol (fun c => c.name == c0)
                (fun c => { c with isForeign := true, references := some ⟨ft, f0⟩ })
                t.columns⟩) := by
  refine ⟨?_, ?_, ?_⟩
  · cases hf : tables.findIdx? (fun t => t.name == tname) with
    | none => simp only [pgApplyStmts, List.foldl_cons, List.foldl_nil, pgApplyStmt, hf]
    | some k =>
      cases hg : tables.get? k with
      | none => simp only [pgApplyStmts, List.foldl_cons, List.foldl_nil, pgApplyStmt, hf, hg]
      | some t =>
        simp only [pgApplyStmts, List.foldl_cons, List.foldl_nil, pgApplyStmt, hf, hg,
          pgApplyCmds]
  · intro hf
    simp only [pgApplyStmts, List.foldl_cons, List.foldl_nil, pgApplyStmt, hf]
  · intro k t hf hg
    simp only [pgApplyStmts, List.foldl_cons, List.foldl_nil, pgApplyStmt, hf, hg, pgApplyCmds]

theorem C2_pg_alter_first_column_only_witness :
    pgApplyStmts
      [PgStmt.alterTable "missing" [PgCmd.addForeignKey ["a", "b"] "p" ["x", "y"]]]
      [{ name := "t", columns := [] }] = [{ name := "t", columns := [] }] :=
  (C2_pg_alter_first_column_only [{ name := "t", columns := [] }] "missing" "p" "a" "x"
    ["b"] ["y"]).2.1 (by decide)

/-! ### Helper lemmas: evolution of the table list under the secondary
foreign-key pass -/

theorem fkColEvolves_refl (c : TableColumn) : fkColEvolves c c :=
  ⟨rfl, rfl, rfl, rfl, Or.inl ⟨rfl, rfl⟩⟩

theorem fkColEvolves_trans {a b c : TableColumn} (h1 : fkColEvolves a b)
    (h2 : fkColEvolves b c) : fkColEvolves a c := by
  obtain ⟨n1, t1, p1, u1, d1⟩ := h1
  obtain ⟨n2, t2, p2, u2, d2⟩ := h2
  refine ⟨n2.trans n1, t2.trans t1, p2.trans p1, u2.trans u1, ?_⟩
  rcases d2 with ⟨f2, r2⟩ | ⟨f2, r, hr, hl⟩
  · rcases d1 with ⟨f1, r1⟩ | ⟨f1, rr, hrr, hll⟩
    · exact Or.inl ⟨f2.trans f1, r2.trans r1⟩
    · exact Or.inr ⟨f2.trans f1, rr, r2.trans hrr, hll⟩
  · exact Or.inr ⟨f2, r, hr, hl⟩

theorem forall₂_refl_of {α : Type} {R : α → α → Prop} (h : ∀ a, R a a) (l : List α) :
    List.Forall₂ R l l :=
  List.forall₂_same.mpr (fun a _ => h a)

theorem forall₂_trans_of {α : Type} {R : α → α → Prop}
    (htrans : ∀ a b c, R a b → R b c → R a c) :
    ∀ {l1 l2 l3 : List α}, List.Forall₂ R l1 l2 → List.Forall₂ R l2 l3 →
      List.Forall₂ R l1 l3 := by
  intro l1 l2 l3 h12
  induction h12 generalizing l3 with
  | nil =>
    intro h23
    cases h23
    exact List.Forall₂.nil
  | cons hab h12 ih =>
    intro h23
    cases h23 with
    | cons hbc h23 => exact List.Forall₂.cons (htrans _ _ _ hab hbc) (ih h23)

theorem forall₂_set_of {α : Type} {R : α → α → Prop} (hrefl : ∀ a, R a a) :
    ∀ (l : List α) (k : Nat) (b : α), (∀ a, l.get? k = some a → R a b) →
      List.Forall₂ R l (l.set k b)
  | [], k, b, _ => by rw [List.set_nil]; exact List.Forall₂.nil
  | a :: t, 0, b, h => by
    rw [List.set_cons_zero]
    exact List.Forall₂.cons (h a rfl) (forall₂_refl_of hrefl t)
  | a :: t, k + 1, b, h => by
    rw [List.set_cons_succ]
    exact List.Forall₂.cons (hrefl a) (forall₂_set_of hrefl t k b (fun x hx => h x hx))

theorem foldl_rel_of {γ β : Type} {S : γ → γ → Prop}
    (hrefl : ∀ g, S g g) (htrans : ∀ a b c, S a b → S b c → S a c)
    (step : γ → β → γ) (hstep : ∀ g m, S g (step g m)) :
    ∀ (ms : List β) (g : γ), S g (List.foldl step g ms)
  | [], g => hrefl g
  | m :: ms, g => by
    rw [List.foldl_cons]
    exact htrans _ _ _ (hstep g m) (foldl_rel_of hrefl htrans step hstep ms (step g m))

theorem updateFirstCol_forall₂ {R : TableColumn → TableColumn → Prop}
    (hrefl : ∀ c, R c c) (p : TableColumn → Bool) (upd : TableColumn → TableColumn)
    (hupd : ∀ c, R c (upd c)) :
    ∀ cols : List TableColumn, List.Forall₂ R cols (updateFirstCol p upd cols)
  | [] => List.Forall₂.nil
  | c :: cs => by
    unfold updateFirstCol
    by_cases h : p c = true
    · rw [if_pos h]
      exact List.Forall₂.cons (hupd c) (forall₂_refl_of hrefl cs)
    · rw [if_neg h]
      exact List.Forall₂.cons (hrefl c) (updateFirstCol_forall₂ hrefl p upd hupd cs)

theorem applyFkCols_evolves (pt : String) (childCols parentCols : List String)
    (hpar : ∀ x ∈ parentCols, lowerStr x = x) (cols : List TableColumn) :
    List.Forall₂ fkColEvolves cols (applyFkCols pt childCols parentCols cols) := by
  unfold applyFkCols
  refine foldl_rel_of (forall₂_refl_of fkColEvolves_refl)
    (fun a b c h1 h2 =>
      @forall₂_trans_of _ fkColEvolves (fun _ _ _ hx hy => fkColEvolves_trans hx hy) a b c h1 h2)
    _ ?_ childCols.enum cols
  intro acc q
  refine updateFirstCol_forall₂ fkColEvolves_refl _ _ ?_ acc
  intro c
  refine ⟨rfl, rfl, rfl, rfl, Or.inr ⟨rfl, ⟨pt, pickParentCol parentCols q.1⟩, rfl, ?_⟩⟩
  rcases pickParentCol_mem_or_empty parentCols q.1 with hm | hm
  · exact hpar _ hm
  · rw [hm]
    rfl

theorem fkTableEvolves_refl (t : TableSchema) : fkTableEvolves t t :=
  ⟨rfl, forall₂_refl_of fkColEvolves_refl t.columns⟩

theorem fkTableEvolves_trans {a b c : TableSchema} (h1 : fkTableEvolves a b)
    (h2 : fkTableEvolves b c) : fkTableEvolves a c :=
  ⟨h2.1.trans h1.1,
   @forall₂_trans_of _ fkColEvolves (fun _ _ _ hx hy => fkColEvolves_trans hx hy)
     a.columns b.columns c.columns h1.2 h2.2⟩

theorem applyAlterFkMatch_evolves (tables : List TableSchema) (m : AlterFkMatch) :
    List.Forall₂ fkTableEvolves tables (applyAlterFkMatch tables m) := by
  cases hf : findTableIdx tables m.table with
  | none =>
    simp only [applyAlterFkMatch, hf]
    exact forall₂_refl_of fkTableEvolves_refl tables
  | some k =>
    cases hg : tables.get? k with
    | none =>
      simp only [applyAlterFkMatch, hf, hg]
      exact forall₂_refl_of fkTableEvolves_refl tables
    | some child =>
      simp only [applyAlterFkMatch, hf, hg]
      refine forall₂_set_of fkTableEvolves_refl tables k _ ?_
      intro a ha
      rw [hg] at ha
      injection ha with ha
      subst ha
      exact ⟨rfl, applyFkCols_evolves _ _ _ (splitCols_lower_fixed m.refcols) _⟩

theorem applyAlterFksFromSql_evolves (ms : List AlterFkMatch) (tables : List TableSchema) :
    List.Forall₂ fkTableEvolves tables (applyAlterFksFromSql ms tables) :=
  foldl_rel_of (forall₂_refl_of fkTableEvolves_refl)
    (fun a b c h1 h2 =>
      @forall₂_trans_of _ fkTableEvolves (fun _ _ _ hx hy => fkTableEvolves_trans hx hy) a b c h1 h2)
    applyAlterFkMatch (fun g m => applyAlterFkMatch_evolves g m) ms tables

/-! ### Claim C8 -/

/-- C8: frame property of the secondary regex foreign-key pass: the table
list keeps its length (no table added or removed), each table keeps its
name and its column count (no column added or removed), and each column
keeps its name, type, primary flag and unique flag; the foreign flag is
either untouched or set to true. -/
theorem C8_regex_fk_pass_frame (ms : List AlterFkMatch) (tables : List TableSchema) :
    (applyAlterFksFromSql ms tables).length = tables.length
  ∧ List.Forall₂
      (fun t t' => t'.name = t.name ∧ t'.columns.length = t.columns.length ∧
        List.Forall₂
          (fun c c' => c'.name = c.name ∧ c'.type = c.type ∧ c'.isPrimary = c.isPrimary ∧
            c'.isUnique = c.isUnique ∧ (c'.isForeign = c.isForeign ∨ c'.isForeign = true))
          t.columns t'.columns)
      tables (applyAlterFksFromSql ms tables) := by
  have h := applyAlterFksFromSql_evolves ms tables
  constructor
  · exact (List.Forall₂.length_eq h).symm
  · refine h.imp ?_
    intro t t' ht
    refine ⟨ht.1, (List.Forall₂.length_eq ht.2).symm, ht.2.imp ?_⟩
    intro c c' hc
    obtain ⟨n, ty, p, u, d⟩ := hc
    refine ⟨n, ty, p, u, ?_⟩
    rcases d with ⟨f, _⟩ | ⟨f, _⟩
    · exact Or.inl f
    · exact Or.inr f

/-! ### Claim C10 -/

/-- C10: the parsed column lists of the secondary regex foreign-key pass
are normalized to lower case, and every references record the pass writes
(any column whose references field differs from its input) carries a
lower-cased column field, so the rendered relation label shows the
lower-cased, unquoted form. -/
theorem C10_regex_fk_references_lowercased (ms : List AlterFkMatch) (tables : List TableSchema) :
    (∀ s : String, ∀ x ∈ splitCols s, lowerStr x = x)
  ∧ List.Forall₂
      (fun t t' => List.Forall₂
        (fun c c' => c'.references = c.references ∨
          ∃ r, c'.references = some r ∧ lowerStr r.column = r.column)
        t.columns t'.columns)
      tables (applyAlterFksFromSql ms tables) := by
  constructor
  · exact fun s => splitCols_lower_fixed s
  · refine (applyAlterFksFromSql_evolves ms tables).imp ?_
    intro t t' ht
    refine ht.2.imp ?_
    intro c c' hc
    rcases hc.2.2.2.2 with ⟨_, hr⟩ | ⟨_, r, hr, hl⟩
    · exact Or.inl hr
    · exact Or.inr ⟨r, hr, hl⟩

theorem C10_regex_fk_references_lowercased_witness : lowerStr "user_id" = "user_id" :=
  (C10_regex_fk_references_lowercased [] []).1 " \x22USER_ID\x22 " "user_id" (by decide)

/-! ### Helper lemmas: the foreign-key pairing invariant through the parse -/

theorem colInv_of_evolves {c c' : TableColumn} (h : fkColEvolves c c') (hc : colInv c) :
    colInv c' := by
  rcases h.2.2.2.2 with ⟨hf, hr⟩ | ⟨hf, r, hr, _⟩
  · unfold colInv at hc ⊢
    rw [hf, hr]
    exact hc
  · unfold colInv
    rw [hf, hr]
    simp

theorem forall₂_mem_right {α β : Type} {R : α → β → Prop} :
    ∀ {l : List α} {l' : List β}, List.Forall₂ R l l' → ∀ b ∈ l', ∃ a ∈ l, R a b := by
  intro l l' h
  induction h with
  | nil =>
    intro b hb
    cases hb
  | cons hab h ih =>
    intro b hb
    rcases List.mem_cons.mp hb with rfl | hb
    · exact ⟨_, List.mem_cons_self _ _, hab⟩
    · obtain ⟨a, ha, hr⟩ := ih b hb
      exact ⟨a, List.mem_cons_of_mem _ ha, hr⟩

theorem applyAlterFksFromSql_inv (ms : List AlterFkMatch) (tables : List TableSchema)
    (h : tablesInv tables) : tablesInv (applyAlterFksFromSql ms tables) := by
  intro t' ht' c' hc'
  obtain ⟨t, ht, hev⟩ := forall₂_mem_right (applyAlterFksFromSql_evolves ms tables) t' ht'
  obtain ⟨c, hc, hcev⟩ := forall₂_mem_right hev.2 c' hc'
  exact colInv_of_evolves hcev (h t ht c hc)

theorem updateFirstCol_pres {P : TableColumn → Prop} (p : TableColumn → Bool)
    (upd : TableColumn → TableColumn) (hupd : ∀ c, P c → P (upd c)) :
    ∀ cols : List TableColumn, (∀ c ∈ cols, P c) → ∀ c' ∈ updateFirstCol p upd cols, P c' := by
  intro cols
  induction cols with
  | nil =>
    intro _ c' hc'
    cases hc'
  | cons c cs ih =>
    intro h c' hc'
    unfold updateFirstCol at hc'
    by_cases hp : p c = true
    · rw [if_pos hp] at hc'
      rcases List.mem_cons.mp hc' with rfl | hmem
      · exact hupd c (h c (List.mem_cons_self c cs))
      · exact h _ (List.mem_cons_of_mem _ hmem)
    · rw [if_neg hp] at hc'
      rcases List.mem_cons.mp hc' with rfl | hmem
      · exact h _ (List.mem_cons_self _ _)
      · exact ih (fun x hx => h x (List.mem_cons_of_mem _ hx)) c' hmem

theorem foldl_cols_inv {β : Type} (step : List TableColumn → β → List TableColumn)
    (hstep : ∀ acc m, (∀ c ∈ acc, colInv c) → ∀ c ∈ step acc m, colInv c) :
    ∀ (ms : List β) (acc : List TableColumn), (∀ c ∈ acc, colInv c) →
      ∀ c ∈ List.foldl step acc ms, colInv c
  | [], _, h => h
  | m :: ms, acc, h => by
    rw [List.foldl_cons]
    exact foldl_cols_inv step hstep ms (step acc m) (hstep acc m h)

theorem foldl_tables_inv {β : Type} (step : List TableSchema → β → List TableSchema)
    (hstep : ∀ acc m, tablesInv acc → tablesInv (step acc m)) :
    ∀ (ms : List β) (acc : List TableSchema), tablesInv acc →
      tablesInv (List.foldl step acc ms)
  | [], _, h => h
  | m :: ms, acc, h => by
    rw [List.foldl_cons]
    exact foldl_tables_inv step hstep ms (step acc m) (hstep acc m h)

theorem pgBuildColumn_inv (col : PgCol) : colInv (pgBuildColumn col) := by
  simp [pgBuildColumn, colInv]

theorem pgApplyTablePk_inv (cons : List PgTableConstraint) (cols : List TableColumn)
    (h : ∀ c ∈ cols, colInv c) : ∀ c ∈ pgApplyTablePk cons cols, colInv c := by
  unfold pgApplyTablePk
  refine foldl_cols_inv _ ?_ cons cols h
  intro acc con hacc
  cases con with
  | primaryKey pkCols =>
    refine foldl_cols_inv _ ?_ pkCols acc hacc
    intro acc2 pk hacc2
    refine updateFirstCol_pres _ _ ?_ acc2 hacc2
    exact fun c hc => hc
  | other => exact hacc

theorem pgApplyCmds_inv (cmds : List PgCmd) (cols : List TableColumn)
    (h : ∀ c ∈ cols, colInv c) : ∀ c ∈ pgApplyCmds cmds cols, colInv c := by
  unfold pgApplyCmds
  refine foldl_cols_inv _ ?_ cmds cols h
  intro acc cmd hacc
  cases cmd with
  | addForeignKey cs ft fs =>
    cases cs with
    | nil => exact hacc
    | cons c0 cst =>
      cases fs with
      | nil => exact hacc
      | cons f0 fst =>
        exact updateFirstCol_pres _ _ (fun c _ => by simp [colInv]) acc hacc
  | other => exact hacc

theorem pgApplyStmt_inv (tables : List TableSchema) (stmt : PgStmt) (h : tablesInv tables) :
    tablesInv (pgApplyStmt tables stmt) := by
  cases stmt with
  | createTable name cols cons =>
    intro t ht c hc
    rcases List.mem_append.mp ht with hmem | hmem
    · exact h t hmem c hc
    · rcases List.mem_cons.mp hmem with rfl | hx
      · refine pgApplyTablePk_inv cons _ ?_ c hc
        intro x hx
        obtain ⟨a, _, rfl⟩ := List.mem_map.mp hx
        exact pgBuildColumn_inv a
      · cases hx
  | alterTable tname cmds =>
    cases hf : tables.findIdx? (fun t => t.name == tname) with
    | none =>
      simp only [pgApplyStmt, hf]
      exact h
    | some k =>
      cases hg : tables.get? k with
      | none =>
        simp only [pgApplyStmt, hf, hg]
        exact h
      | some t =>
        simp only [pgApplyStmt, hf, hg]
        intro t' ht' c hc
        rcases List.mem_or_eq_of_mem_set ht' with hmem | rfl
        · exact h t' hmem c hc
        · exact pgApplyCmds_inv cmds t.columns (h t (List.get?_mem hg)) c hc
  | other => exact h

theorem myBuildColumn_inv (c : MyColDef) : colInv (myBuildColumn c) := by
  unfold myBuildColumn colInv
  by_cases h : c.constraintType == some "foreign key" <;> simp [h]

theorem myApplyCons_inv (defs : List MyDef) (cols : List TableColumn)
    (h : ∀ c ∈ cols, colInv c) : ∀ c ∈ myApplyCons defs cols, colInv c := by
  unfold myApplyCons
  refine foldl_cols_inv _ ?_ defs cols h
  intro acc d hacc
  cases d with
  | conPrimaryKey pkCols =>
    refine foldl_cols_inv _ ?_ pkCols acc hacc
    intro acc2 pk hacc2
    refine updateFirstCol_pres _ _ ?_ acc2 hacc2
    exact fun c hc => hc
  | conForeignKey fkCols rt rcs =>
    refine foldl_cols_inv _ ?_ fkCols.enum acc hacc
    intro acc2 q hacc2
    cases hrc : rcs.get? q.1 with
    | none => exact hacc2
    | some rc => exact updateFirstCol_pres _ _ (fun c _ => by simp [colInv]) acc2 hacc2
  | column c => exact hacc
  | conOther => exact hacc

theorem myApplyStmt_inv (tables : List TableSchema) (stmt : MyStmt) (h : tablesInv tables) :
    tablesInv (myApplyStmt tables stmt) := by
  cases stmt with
  | create tname defs =>
    cases tname with
    | none => exact h
    | some tn =>
      intro t ht c hc
      rcases List.mem_append.mp ht with hmem | hmem
      · exact h t hmem c hc
      · rcases List.mem_cons.mp hmem with rfl | hx
        · refine myApplyCons_inv defs _ ?_ c hc
          intro x hx
          obtain ⟨d, _, hd⟩ := List.mem_filterMap.mp hx
          cases d with
          | column cd =>
            injection hd with hd
            subst hd
            exact myBuildColumn_inv cd
          | conPrimaryKey a => cases hd
          | conForeignKey a b e => cases hd
          | conOther => cases hd
        · cases hx
  | other => exact h

theorem parseFile_inv (tables : List TableSchema) (f : SqlFile) (h : tablesInv tables) :
    tablesInv (parseFile tables f) := by
  unfold parseFile
  cases detectDatabase f.sql with
  | Postgres => exact foldl_tables_inv pgApplyStmt (fun a m ha => pgApplyStmt_inv a m ha) f.pgAst tables h
  | MySQL =>
    cases f.myAst with
    | none => exact h
    | some stmts =>
      exact applyAlterFksFromSql_inv f.fkMatches _
        (foldl_tables_inv myApplyStmt (fun a m ha => myApplyStmt_inv a m ha) stmts tables h)
  | SQLite =>
    cases f.myAst with
    | none => exact h
    | some stmts =>
      exact applyAlterFksFromSql_inv f.fkMatches _
        (foldl_tables_inv myApplyStmt (fun a m ha => myApplyStmt_inv a m ha) stmts tables h)

/-! ### Claim C9 -/

/-- C9: the foreign-key pairing invariant of the full parse: in every
table produced by SQLParser.parse (either dialect path, including the
secondary regex foreign-key pass), a column has its foreign flag set
exactly when its references record is present. -/
theorem C9_isforeign_iff_references (files : List SqlFile) (t : TableSchema) (c : TableColumn)
    (ht : t ∈ SQLParser.parse files) (hc : c ∈ t.columns) :
    c.isForeign = true ↔ c.references.isSome = true := by
  have hinv : tablesInv (SQLParser.parse files) := by
    unfold SQLParser.parse
    refine foldl_tables_inv parseFile (fun a m ha => parseFile_inv a m ha) files [] ?_
    intro t ht
    cases ht
  exact hinv t ht c hc

theorem C9_isforeign_iff_references_witness :
    (({ name := "user_id", type := "int", isForeign := true,
        references := some { table := "users", column := "id" } } : TableColumn).isForeign = true)
      ↔ ((some { table := "users", column := "id" } : Option ColRef).isSome = true) :=
  C9_isforeign_iff_references
    [{ sql := "x AUTO_INCREMENT",
       pgAst := [],
       myAst := some [MyStmt.create (some "t")
         [MyDef.column { name := "user_id", dataType := "int",
                         constraintType := some "foreign key",
                         refTable := "users", refColumn := "id" }]],
       fkMatches := [] }]
    { name := "t",
      columns := [{ name := "user_id", type := "int", isForeign := true,
                    references := some { table := "users", column := "id" } }] }
    { name := "user_id", type := "int", isForeign := true,
      references := some { table := "users", column := "id" } }
    (by decide) (by decide)

/-! ### Helper lemmas: the foreign-key relation lines -/

theorem pk_filter_singleton {cols : List TableColumn} {c : TableColumn} (hc : c ∈ cols)
    (hp : c.isPrimary = true) :
    (cols.filter (fun x => x.isPrimary)).length = 1 ↔ cols.filter (fun x => x.isPrimary) = [c] := by
  constructor
  · intro hl
    have hmem : c ∈ cols.filter (fun x => x.isPrimary) := List.mem_filter.mpr ⟨hc, hp⟩
    obtain ⟨a, ha⟩ := List.length_eq_one.mp hl
    rw [ha] at hmem
    rw [ha]
    rcases List.mem_singleton.mp hmem with rfl
    rfl
  · intro h
    rw [h]
    rfl

theorem fkRelLine_claim_form (t : TableSchema) (c : TableColumn) (hc : c ∈ t.columns) :
    fkRelLine t c =
      match c.references with
      | none => none
      | some r =>
        if c.isForeign = true then
          some ("  " ++ upperStr r.table ++ " "
            ++ (if c.isUnique = true ∨
                  (c.isPrimary = true ∧ t.columns.filter (fun x => x.isPrimary) = [c])
                then "||--||" else "||--o\x7b")
            ++ " " ++ upperStr t.name ++ " : " ++ c.name ++ "→" ++ r.column ++ "\n")
        else none := by
  have hiff : ((c.isUnique ||
        (c.isPrimary && ((t.columns.filter (fun x => x.isPrimary)).map (fun x => x.name)).length == 1)) = true)
      ↔ (c.isUnique = true ∨
          (c.isPrimary = true ∧ t.columns.filter (fun x => x.isPrimary) = [c])) := by
    rw [Bool.or_eq_true, Bool.and_eq_true, beq_iff_eq, List.length_map]
    exact or_congr Iff.rfl (and_congr_right (fun hp => pk_filter_singleton hc hp))
  cases href : c.references with
  | none => simp only [fkRelLine, href]
  | some r =>
    by_cases hf : c.isForeign = true
    · simp only [fkRelLine, href, if_pos hf]
      by_cases hb : c.isUnique = true ∨
          (c.isPrimary = true ∧ t.columns.filter (fun x => x.isPrimary) = [c])
      · rw [if_pos (hiff.mpr hb), if_pos hb]
      · rw [if_neg (fun hh => hb (hiff.mp hh)), if_neg hb]
    · simp only [fkRelLine, href, if_neg hf]

/-! ### Claim C1 -/

/-- C1: the renderer appends, for every table of the original
(non-deduplicated) sequence and every column of it that is foreign and
carries a references record, exactly one relation line of the form
PARENT arrow CHILD : column→referencedColumn, where the arrow is the
one-to-one token exactly when the column is unique, or is primary and is
the only primary-key column of its table, and the one-to-many token
otherwise. -/
theorem C1_fk_relation_lines (schemas : List TableSchema) (rels : List TableRelation) :
    (schemas ≠ [] → generateMermaidERD schemas rels =
      "erDiagram\n" ++ String.join ((dedupeTables schemas).map renderEntity)
        ++ String.join (rels.map explicitRelLine) ++ String.join (fkRelLines schemas))
  ∧ fkRelLines schemas = schemas.flatMap (fun t =>
      t.columns.filterMap (fun c =>
        match c.references with
        | none => none
        | some r =>
          if c.isForeign = true then
            some ("  " ++ upperStr r.table ++ " "
              ++ (if c.isUnique = true ∨
                    (c.isPrimary = true ∧ t.columns.filter (fun x => x.isPrimary) = [c])
                  then "||--||" else "||--o\x7b")
              ++ " " ++ upperStr t.name ++ " : " ++ c.name ++ "→" ++ r.column ++ "\n")
          else none)) := by
  constructor
  · intro hne
    cases schemas with
    | nil => exact absurd rfl hne
    | cons t ts => rfl
  · induction schemas with
    | nil => rfl
    | cons t ts ih =>
      show t.columns.filterMap (fkRelLine t) ++ fkRelLines ts = _
      rw [List.flatMap_cons, ih]
      congr 1
      exact List.filterMap_congr (fun c hc => fkRelLine_claim_form t c hc)

theorem C1_fk_relation_lines_witness :
    generateMermaidERD [{ name := "t", columns := [] }] [] =
      "erDiagram\n" ++ String.join ((dedupeTables [{ name := "t", columns := [] }]).map renderEntity)
        ++ String.join (([] : List TableRelation).map explicitRelLine)
        ++ String.join (fkRelLines [{ name := "t", columns := [] }]) :=
  (C1_fk_relation_lines [{ name := "t", columns := [] }] []).1 (by decide)

/-! ### Claim C4 (corrected) -/

/-- C4 counterexample: a foreign-key-derived relation label is emitted raw:
with a column named a|b the relation line keeps the pipe character, while
the sanitizer would have removed it, so not every relation label is
sanitized. -/
theorem C4_counterexample :
    generateMermaidERD
      [{ name := "t",
         columns := [{ name := "a|b", type := "int", isForeign := true,
                       references := some { table := "p", column := "x" } }] }] [] =
      "erDiagram\n  T \x7b\n    INT a|b FK\n  \x7d\n  P ||--o\x7b T : a|b→x\n"
  ∧ safeLabel "a|b→x" ≠ "a|b→x" :=
  ⟨by decide, by decide⟩

/-- C4 amended: only the labels of explicit annotation-file relation lines
are sanitized through safeLabel; the label of a foreign-key-derived
relation line is the raw column name, arrow character and referenced
column name, with no sanitization applied. -/
theorem C4_label_sanitization (rel : TableRelation) (t : TableSchema) (c : TableColumn)
    (r : ColRef) :
    (∃ s, explicitRelLine rel =
        "  " ++ upperStr rel.targetTable ++ " "
          ++ (if includes (lowerStr rel.type) "many" then "||--o\x7b" else "||--||")
          ++ " " ++ upperStr rel.sourceTable ++ " : " ++ safeLabel s ++ "\n")
  ∧ (c.isForeign = true → c.references = some r →
      fkRelLine t c = some ("  " ++ upperStr r.table ++ " "
        ++ (if (c.isUnique ||
              (c.isPrimary &&
                ((t.columns.filter (fun x => x.isPrimary)).map (fun x => x.name)).length == 1)) = true
            then "||--||" else "||--o\x7b")
        ++ " " ++ upperStr t.name ++ " : " ++ c.name ++ "→" ++ r.column ++ "\n")) := by
  constructor
  · exact ⟨if rel.name ≠ "" then rel.name else if rel.type ≠ "" then rel.type else "rel", rfl⟩
  · intro hf href
    simp only [fkRelLine, href, if_pos hf]

theorem C4_label_sanitization_witness :
    fkRelLine { name := "t", columns := [] }
        { name := "a", type := "int", isForeign := true,
          references := some { table := "p", column := "x" } } =
      some "  P ||--o\x7b T : a→x\n" :=
  ((C4_label_sanitization ⟨"", "", "", "", "", ""⟩
      { name := "t", columns := [] }
      { name := "a", type := "int", isForeign := true,
        references := some { table := "p", column := "x" } }
      { table := "p", column := "x" }).2 rfl rfl).trans (by decide)

/-! ### Helper lemmas: de-duplication -/

theorem beq_symm_str (a b : String) : (a == b) = (b == a) := by
  by_cases h : a = b
  · subst h
    rfl
  · rw [beq_eq_false_iff_ne.mpr h, beq_eq_false_iff_ne.mpr (Ne.symm h)]

theorem dedupeTables_foldl_aux :
    ∀ (l acc : List TableSchema),
      List.foldl (fun acc t => if acc.any (fun u => tableKey u == tableKey t) then acc
                               else acc ++ [t]) acc l
        = acc ++ keepFirstByKey tableKey
            (l.filter (fun t => !(acc.any (fun u => tableKey u == tableKey t)))) := by
  intro l
  induction l with
  | nil =>
    intro acc
    rw [List.foldl_nil, List.filter_nil, keepFirstByKey, List.append_nil]
  | cons t ts ih =>
    intro acc
    rw [List.foldl_cons]
    by_cases h : acc.any (fun u => tableKey u == tableKey t) = true
    · rw [if_pos h, ih acc, List.filter_cons]
      simp only [h, Bool.not_true, Bool.false_eq_true, if_false]
    · rw [if_neg h, ih (acc ++ [t]), List.filter_cons]
      have hb : (acc.any (fun u => tableKey u == tableKey t)) = false := by
        simpa using h
      simp only [hb, Bool.not_false, if_true]
      rw [keepFirstByKey, List.append_assoc]
      have hfeq : List.filter (fun u => !(acc ++ [t]).any (fun v => tableKey v == tableKey u)) ts
          = List.filter (fun u => tableKey u != tableKey t)
              (List.filter (fun u => !(acc.any (fun v => tableKey v == tableKey u))) ts) := by
        rw [List.filter_filter]
        apply List.filter_congr
        intro u hu
        simp only [List.any_append, List.any_cons, List.any_nil, Bool.or_false, Bool.not_or,
          bne, beq_symm_str (tableKey u) (tableKey t), Bool.and_comm]
      rw [hfeq, List.singleton_append]

theorem dedupeTables_eq_keepFirst (schemas : List TableSchema) :
    dedupeTables schemas = keepFirstByKey tableKey schemas := by
  unfold dedupeTables
  rw [dedupeTables_foldl_aux schemas []]
  simp

theorem keepFirstByKey_subset (key : TableSchema → String) (l : List TableSchema) :
    ∀ u ∈ keepFirstByKey key l, u ∈ l := by
  induction l using keepFirstByKey.induct key with
  | case1 =>
    intro u hu
    rw [keepFirstByKey] at hu
    cases hu
  | case2 t ts ih =>
    intro u hu
    rw [keepFirstByKey] at hu
    rcases List.mem_cons.mp hu with rfl | hm
    · exact List.mem_cons_self _ _
    · exact List.mem_cons_of_mem _ ((List.mem_filter.mp (ih u hm)).1)

theorem keepFirstByKey_keys_nodup (key : TableSchema → String) (l : List TableSchema) :
    ((keepFirstByKey key l).map key).Nodup := by
  induction l using keepFirstByKey.induct key with
  | case1 =>
    rw [keepFirstByKey]
    exact List.nodup_nil
  | case2 t ts ih =>
    rw [keepFirstByKey, List.map_cons]
    refine List.nodup_cons.mpr ⟨?_, ih⟩
    intro hmem
    obtain ⟨u, hu, hku⟩ := List.mem_map.mp hmem
    have hne := (List.mem_filter.mp (keepFirstByKey_subset key _ u hu)).2
    exact absurd hku (by simpa using hne)

theorem keepFirstByKey_covers (key : TableSchema → String) (l : List TableSchema) :
    ∀ x ∈ l, ∃ u ∈ keepFirstByKey key l, key u = key x := by
  induction l using keepFirstByKey.induct key with
  | case1 =>
    intro x hx
    cases hx
  | case2 t ts ih =>
    intro x hx
    rw [keepFirstByKey]
    rcases List.mem_cons.mp hx with rfl | hm
    · exact ⟨x, List.mem_cons_self _ _, rfl⟩
    · by_cases hk : key x = key t
      · exact ⟨t, List.mem_cons_self _ _, hk.symm⟩
      · have hxf : x ∈ ts.filter (fun u => key u != key t) :=
          List.mem_filter.mpr ⟨hm, by simpa using hk⟩
        obtain ⟨u, hu, hku⟩ := ih x hxf
        exact ⟨u, List.mem_cons_of_mem _ hu, hku⟩

/-! ### Claim C5 (corrected) -/

/-- C5 counterexample: the de-duplication key trims the table name before
upper-casing, so two table names that differ only by surrounding
whitespace (equal after trimming, different after mere upper-casing) fall
into one code-side group: the claim-side grouping by upper-cased (but
untrimmed) name keeps two tables, while the renderer keeps one and emits
a single entity block. -/
theorem C5_counterexample :
    (keepFirstByKey (fun t => upperStr t.name)
        [{ name := "A", columns := [] }, { name := " A", columns := [] }]).length = 2
  ∧ (dedupeTables [{ name := "A", columns := [] }, { name := " A", columns := [] }]).length = 1
  ∧ dedupeTables [{ name := "A", columns := [] }, { name := " A", columns := [] }] ≠
      keepFirstByKey (fun t => upperStr t.name)
        [{ name := "A", columns := [] }, { name := " A", columns := [] }]
  ∧ generateMermaidERD [{ name := "A", columns := [] }, { name := " A", columns := [] }] [] =
      "erDiagram\n  A \x7b\n  \x7d\n" := by
  have hK : keepFirstByKey (fun t => upperStr t.name)
      [{ name := "A", columns := [] }, { name := " A", columns := [] }] =
      [{ name := "A", columns := [] }, { name := " A", columns := [] }] := by
    simp +decide [keepFirstByKey]
  have hD : dedupeTables [{ name := "A", columns := [] }, { name := " A", columns := [] }] =
      [{ name := "A", columns := [] }] := by decide
  refine ⟨by rw [hK]; rfl, by rw [hD]; rfl, ?_, by decide⟩
  rw [hK, hD]
  decide

/-- C5 amended: the renderer emits exactly one entity block per
equivalence class of tables whose names are equal after trimming and
upper-casing, keeping the first table of each class in first-occurrence
order (later members of a class are dropped with all their columns): the
de-duplicated list equals the claim-side keep-first-of-each-class list,
its keys are pairwise distinct, every input table has its class
represented, and the rendered output uses exactly these survivors for its
entity blocks. -/
theorem C5_dedupe_by_trimmed_upper (schemas : List TableSchema) :
    dedupeTables schemas = keepFirstByKey tableKey schemas
  ∧ ((dedupeTables schemas).map tableKey).Nodup
  ∧ (∀ t ∈ schemas, ∃ u ∈ dedupeTables schemas, tableKey u = tableKey t)
  ∧ (schemas ≠ [] → ∀ rels, generateMermaidERD schemas rels =
      "erDiagram\n" ++ String.join ((keepFirstByKey tableKey schemas).map renderEntity)
        ++ String.join (rels.map explicitRelLine) ++ String.join (fkRelLines schemas)) := by
  have he := dedupeTables_eq_keepFirst schemas
  refine ⟨he, ?_, ?_, ?_⟩
  · rw [he]
    exact keepFirstByKey_keys_nodup tableKey schemas
  · rw [he]
    exact keepFirstByKey_covers tableKey schemas
  · intro hne rels
    have h1 : generateMermaidERD schemas rels =
        "erDiagram\n" ++ String.join ((dedupeTables schemas).map renderEntity)
          ++ String.join (rels.map explicitRelLine) ++ String.join (fkRelLines schemas) := by
      cases schemas with
      | nil => exact absurd rfl hne
      | cons t ts => rfl
    rw [h1, he]

theorem C5_dedupe_by_trimmed_upper_witness :
    ∃ u ∈ dedupeTables [{ name := "x", columns := [] }],
      tableKey u = tableKey { name := "x", columns := [] } :=
  (C5_dedupe_by_trimmed_upper [{ name := "x", columns := [] }]).2.2.1 _ (by decide)
